import Mathlib

/-
Verification of the dendrite trust-key resolution layer.

Shallow embedding of two source files:
  * serverkeyapi/internal/api.go  — the `ServerKeyAPI` cascade
    (`FetchKeys`, `handleLocalKeys`, `handleDatabaseKeys`,
    `handleFetcherKeys`).
  * syncapi/consumers/keychange.go — the `OutputKeyChangeEventConsumer`
    (`onMessage`, `updateOffset`).

Modelling decisions:
  * Go maps become association lists (`List (κ × ν)`) with `kfind`,
    `kinsert`, `kerase`; iteration order is the list order (Go map
    iteration order is unspecified, and no verified property depends
    on it).
  * `time.Now()` is modelled as a single `now` field of the
    environment: within one call the two Go readings of the clock are
    identified.
  * `context.Context` values are modelled structurally by `Ctx`;
    every external call (database fetch, fetcher fetch, database
    store) is recorded in an event trace together with the context it
    received, so that statements about which context bounds which
    stage become statements about the trace.
  * The external collaborators (key database, key fetchers, JSON
    decoding, the shared-users query) are fields of the environment:
    arbitrary functions returning `Except`/values.
  * Log statements (logrus) have no observable effect and are
    dropped.
-/

namespace Dendrite

/-- Milliseconds-since-epoch timestamp (`gomatrixserverlib.Timestamp`). -/
abbrev Timestamp := Nat

/-- One key lookup request (`gomatrixserverlib.PublicKeyLookupRequest`):
the remote party (server name) and the key identifier. -/
structure PublicKeyLookupRequest where
  serverName : String
  keyID : String
deriving DecidableEq, Repr

/-- Sentinel for `ExpiredTS` meaning the key has never expired
(`gomatrixserverlib.PublicKeyNotExpired`). -/
def PublicKeyNotExpired : Timestamp := 0

/-- One key lookup result (`gomatrixserverlib.PublicKeyLookupResult`):
the key bytes and the validity window. -/
structure PublicKeyLookupResult where
  key : List Nat
  expiredTS : Timestamp
  validUntilTS : Timestamp
deriving DecidableEq, Repr

/-- Modelled from the spec: the external library's validity check
`PublicKeyLookupResult.WasValidAt(t, strict)` — true when `t` falls
within the validity window (before `validUntil`) and, under strict
checking, the key is not already past `expiredAt`
(`PublicKeyNotExpired` meaning no expiry recorded).  The function
itself lives in the external `gomatrixserverlib` dependency, outside
this repository; the resolver only branches on its boolean answer. -/
def wasValidAt (r : PublicKeyLookupResult) (atTS : Timestamp) (strict : Bool) : Bool :=
  if atTS < r.validUntilTS then
    if strict then
      if r.expiredTS = PublicKeyNotExpired then true else decide (atTS < r.expiredTS)
    else true
  else false

/-! ### Association-list maps (the embedding of Go maps) -/

/-- Lookup in an association list (`m[k]`). -/
def kfind {α β : Type} [DecidableEq α] : List (α × β) → α → Option β
  | [], _ => none
  | (a, b) :: rest, k => if a = k then some b else kfind rest k

/-- Insert/overwrite in an association list (`m[k] = v`). -/
def kinsert {α β : Type} [DecidableEq α] : List (α × β) → α → β → List (α × β)
  | [], k, v => [(k, v)]
  | (a, b) :: rest, k, v =>
    if a = k then (a, v) :: rest else (a, b) :: kinsert rest k v

/-- Removal from an association list (`delete(m, k)`). -/
def kerase {α β : Type} [DecidableEq α] : List (α × β) → α → List (α × β)
  | [], _ => []
  | (a, b) :: rest, k =>
    if a = k then kerase rest k else (a, b) :: kerase rest k

/-- The keys of an association list. -/
def kkeys {α β : Type} (m : List (α × β)) : List α := m.map Prod.fst

/-! ### Contexts, events, errors -/

/-- Structural model of a `context.Context`: the caller's context is an
opaque `other` value, `background` is `context.Background()`, and
`withTimeout` is `context.WithTimeout(parent, ms)`. -/
inductive Ctx where
  | background : Ctx
  | withTimeout : Ctx → Nat → Ctx
  | other : Nat → Ctx
deriving DecidableEq, Repr, BEq

/-- Whether context `c` is `p` itself or was derived from `p` by
adding timeouts. -/
def ctxDerivedFrom : Ctx → Ctx → Bool
  | Ctx.withTimeout c t, p =>
    (Ctx.withTimeout c t == p) || ctxDerivedFrom c p
  | c, p => c == p

abbrev ReqMap := List (PublicKeyLookupRequest × Timestamp)
abbrev ResMap := List (PublicKeyLookupRequest × PublicKeyLookupResult)

/-- One observable external call made by the resolver, with the
context it received and the batch it was handed. -/
inductive Event where
  | dbFetch : Ctx → ReqMap → Event
  | fetcherFetch : String → Ctx → ReqMap → Event
  | dbStore : Ctx → ResMap → Event
deriving DecidableEq, Repr

/-- The requests appearing in the batch an event carries. -/
def eventReqs : Event → List PublicKeyLookupRequest
  | Event.dbFetch _ pending => kkeys pending
  | Event.fetcherFetch _ _ pending => kkeys pending
  | Event.dbStore _ batch => kkeys batch

/-- The context an event's external call received. -/
def eventCtx : Event → Ctx
  | Event.dbFetch c _ => c
  | Event.fetcherFetch _ c _ => c
  | Event.dbStore c _ => c

/-- The store batch an event carries (empty for non-store events). -/
def storeBatchOf : Event → ResMap
  | Event.dbStore _ batch => batch
  | _ => []

/-- Errors surfaced inside the resolver: a database fetch failure, a
fetcher failure, a (wrapped) store failure, and the final
unsatisfiable-request error naming the request. -/
inductive Err where
  | dbErr : String → Err
  | fetchErr : String → Err
  | storeErr : String → Err
  | unsat : PublicKeyLookupRequest → Err
deriving DecidableEq, Repr

/-- Whether an error is a fetcher-stage failure (fetch or store). -/
def Err.isStoreOrFetchFailure : Err → Bool
  | Err.storeErr _ => true
  | Err.fetchErr _ => true
  | _ => false

/-- One configured key fetcher (`gomatrixserverlib.KeyFetcher`): its
`FetcherName()` and its `FetchKeys` behaviour. -/
structure Fetcher where
  name : String
  fetch : ReqMap → Except String ResMap

/-- The `ServerKeyAPI` receiver together with the behaviour of its
external collaborators: own identity and key, configured validity
duration, the key database (batch fetch and batch store), the ordered
fetcher list, and the wall clock. -/
structure KeyEnv where
  serverName : String
  serverPublicKey : List Nat
  serverKeyID : String
  serverKeyValidity : Nat
  dbFetch : ReqMap → Except String ResMap
  dbStore : ResMap → Option String
  fetchers : List Fetcher
  now : Timestamp

/-! ### The cascade (serverkeyapi/internal/api.go) -/

/-- The synthesized result for the server's own key inserted by
`handleLocalKeys`: own public key, `ExpiredTS = PublicKeyNotExpired`,
`ValidUntilTS = now + ServerKeyValidity`. -/
def selfResult (e : KeyEnv) : PublicKeyLookupResult :=
  { key := e.serverPublicKey
    expiredTS := PublicKeyNotExpired
    validUntilTS := e.now + e.serverKeyValidity }

/-- The loop body of `handleLocalKeys`: walk a snapshot of the request
map; every request for our own server name is removed from the pending
map and answered with the synthesized self result. -/
def localPass (sn : String) (self : PublicKeyLookupResult) :
    List (PublicKeyLookupRequest × Timestamp) → ReqMap → ResMap → ReqMap × ResMap
  | [], requests, results => (requests, results)
  | (req, _) :: rest, requests, results =>
    if req.serverName = sn then
      localPass sn self rest (kerase requests req) (kinsert results req self)
    else
      localPass sn self rest requests results

/-- `handleLocalKeys`: satisfy requests for our own keys directly,
removing them from the pending map. -/
def handleLocalKeys (e : KeyEnv) (requests : ReqMap) (results : ResMap) :
    ReqMap × ResMap :=
  localPass e.serverName (selfResult e) requests requests results

/-- The loop body of `handleDatabaseKeys` over the database results:
always insert into the result map (even a stale key can verify old
material); remove from the pending map only when valid now. -/
def dbPass (now : Timestamp) :
    ResMap → ReqMap → ResMap → ReqMap × ResMap
  | [], requests, results => (requests, results)
  | (req, res) :: rest, requests, results =>
    dbPass now rest
      (if wasValidAt res now true then kerase requests req else requests)
      (kinsert results req res)

/-- `handleDatabaseKeys`: one batch fetch against the key database; a
database error is returned to the caller; otherwise fold the results
with `dbPass`.  The event records the context the database received. -/
def handleDatabaseKeys (e : KeyEnv) (ctx : Ctx) (now : Timestamp)
    (requests : ReqMap) (results : ResMap) :
    Except String (ReqMap × ResMap) × List Event :=
  match e.dbFetch requests with
  | Except.error err => (Except.error err, [Event.dbFetch ctx requests])
  | Except.ok dbResults =>
    (Except.ok (dbPass now dbResults requests results), [Event.dbFetch ctx requests])

/-- The store-staging decision of `handleFetcherKeys` for one fetcher
result: stage it into the store batch only when it is strictly newer
than the previous result map entry (or there was none), and only when
the request is not for our own server. -/
def storeStage (sn : String) (results : ResMap) (storeResults : ResMap)
    (req : PublicKeyLookupRequest) (res : PublicKeyLookupResult) : ResMap :=
  match kfind results req with
  | some prev =>
    if res.validUntilTS > prev.validUntilTS then
      if req.serverName = sn then storeResults else kinsert storeResults req res
    else storeResults
  | none =>
    if req.serverName = sn then storeResults else kinsert storeResults req res

/-- The loop body of `handleFetcherKeys` over one fetcher's results:
stage into the store batch via `storeStage`, then unconditionally
overwrite the result map and remove from the pending map when valid
now. -/
def fetcherPass (sn : String) (now : Timestamp) :
    ResMap → ReqMap → ResMap → ResMap → ReqMap × ResMap × ResMap
  | [], requests, results, storeResults => (requests, results, storeResults)
  | (req, res) :: rest, requests, results, storeResults =>
    fetcherPass sn now rest
      (if wasValidAt res now true then kerase requests req else requests)
      (kinsert results req res)
      (storeStage sn results storeResults req res)

/-- Outcome of one fetcher stage: the (shared, mutated) pending and
result maps, the error if any, and the events of the stage. -/
structure FetcherStage where
  requests : ReqMap
  results : ResMap
  error : Option Err
  events : List Event

/-- `handleFetcherKeys`: fetch with a context capped at 30 seconds; on
fetch failure return the error with the maps untouched; otherwise fold
the results with `fetcherPass` and issue one batch store of the staged
entries (on the uncapped stage context); a store failure is returned
as a wrapped error distinct from fetch failures, after the map
mutations already happened. -/
def handleFetcherKeys (e : KeyEnv) (ctx : Ctx) (now : Timestamp) (f : Fetcher)
    (requests : ReqMap) (results : ResMap) : FetcherStage :=
  let fetcherCtx := Ctx.withTimeout ctx 30000
  match f.fetch requests with
  | Except.error msg =>
    { requests := requests, results := results
      error := some (Err.fetchErr msg)
      events := [Event.fetcherFetch f.name fetcherCtx requests] }
  | Except.ok fetcherResults =>
    let st := fetcherPass e.serverName now fetcherResults requests results []
    match e.dbStore st.2.2 with
    | some msg =>
      { requests := st.1, results := st.2.1
        error := some (Err.storeErr msg)
        events := [Event.fetcherFetch f.name fetcherCtx requests,
                   Event.dbStore ctx st.2.2] }
    | none =>
      { requests := st.1, results := st.2.1
        error := none
        events := [Event.fetcherFetch f.name fetcherCtx requests,
                   Event.dbStore ctx st.2.2] }

/-- The fetcher loop of `FetchKeys`: stop once the pending map is
empty; a stage error (fetch or store failure) is logged and the loop
continues with the next fetcher, keeping whatever map mutations the
stage already made. -/
def fetcherLoop (e : KeyEnv) (ctx : Ctx) (now : Timestamp) :
    List Fetcher → ReqMap → ResMap → ReqMap × ResMap × List Event
  | [], requests, results => (requests, results, [])
  | f :: fs, requests, results =>
    if requests.isEmpty then (requests, results, [])
    else
      let st := handleFetcherKeys e ctx now f requests results
      let rest := fetcherLoop e ctx now fs st.requests st.results
      (rest.1, rest.2.1, st.events ++ rest.2.2)

/-- The completeness check of `FetchKeys`: the first original request
with no entry at all in the result map, if any. -/
def firstUnsatisfied (orig : ReqMap) (results : ResMap) :
    Option PublicKeyLookupRequest :=
  match orig with
  | [] => none
  | (req, _) :: rest =>
    match kfind results req with
    | none => some req
    | some _ => firstUnsatisfied rest results

/-- The observable outcome of one `FetchKeys` call: the returned
result map (`nil` becomes `[]`), the returned error, the final state
of the caller's (mutated) request map, and the trace of external
calls. -/
structure FKOut where
  results : ResMap
  error : Option Err
  finalRequests : ReqMap
  trace : List Event
deriving Repr

/-- `ServerKeyAPI.FetchKeys` (the spec's `ResolveBatch`): ignore the
caller's context and run on `context.Background()`; copy the original
requests; satisfy self keys locally; consult the database (an error
there returns `nil` results immediately); cascade through the
fetchers; finally report the first original request with no entry at
all. -/
def FetchKeys (e : KeyEnv) (callerCtx : Ctx) (requests0 : ReqMap) : FKOut :=
  let st1 := handleLocalKeys e requests0 []
  let db := handleDatabaseKeys e Ctx.background e.now st1.1 st1.2
  match db.1 with
  | Except.error msg =>
    { results := [], error := some (Err.dbErr msg)
      finalRequests := st1.1, trace := db.2 }
  | Except.ok st2 =>
    let st3 := fetcherLoop e Ctx.background e.now e.fetchers st2.1 st2.2
    let trace := db.2 ++ st3.2.2
    match firstUnsatisfied requests0 st3.2.1 with
    | some req =>
      { results := st3.2.1, error := some (Err.unsat req)
        finalRequests := st3.1, trace := trace }
    | none =>
      { results := st3.2.1, error := none
        finalRequests := st3.1, trace := trace }

/-- The pending/result maps after the local and database stages of one
`FetchKeys` call whose database fetch returned `m`. -/
def postDb (e : KeyEnv) (requests0 : ReqMap) (m : ResMap) : ReqMap × ResMap :=
  dbPass e.now m (handleLocalKeys e requests0 []).1 (handleLocalKeys e requests0 []).2

/-- The pending map, result map and events after the fetcher loop of
one `FetchKeys` call whose database fetch returned `m`. -/
def postLoop (e : KeyEnv) (requests0 : ReqMap) (m : ResMap) :
    ReqMap × ResMap × List Event :=
  fetcherLoop e Ctx.background e.now e.fetchers (postDb e requests0 m).1
    (postDb e requests0 m).2

/-! ### The key-change consumer (syncapi/consumers/keychange.go) -/

/-- `types.LogPosition`: a partition/offset stream position. -/
structure LogPosition where
  offset : Int
  partition : Int
deriving DecidableEq, Repr

/-- `types.StreamingToken` as built by `onMessage`: only the
device-list position is populated. -/
structure StreamingToken where
  deviceListPosition : LogPosition
deriving DecidableEq, Repr

/-- The part of `api.DeviceMessage` the consumer reads: the user whose
keys changed. -/
structure DeviceMessage where
  userID : String
deriving DecidableEq, Repr

/-- `sarama.ConsumerMessage`: partition, offset and raw value bytes. -/
structure ConsumerMessage where
  partition : Int
  offset : Int
  value : List Nat
deriving DecidableEq, Repr

/-- One call to `notifier.OnNewKeyChange(posUpdate, wakeUserID,
keyChangeUserID)`. -/
structure KeyChangeNotification where
  posUpdate : StreamingToken
  wakeUserID : String
  keyChangeUserID : String
deriving DecidableEq, Repr

/-- External collaborators of the consumer: `json.Unmarshal` into a
`DeviceMessage` and `rsAPI.QuerySharedUsers` returning the
`UserIDsToCount` map. -/
structure KeyChangeEnv where
  unmarshalDeviceMessage : List Nat → Except String DeviceMessage
  querySharedUsers : String → Except String (List (String × Nat))

/-- The observable outcome of one `onMessage` call: the returned
error, the notifier calls made, and the `partitionToOffset` map after
the deferred `updateOffset`. -/
structure OnMessageOut where
  error : Option String
  notified : List KeyChangeNotification
  partitionToOffset : List (Int × Int)
deriving Repr

/-- `OutputKeyChangeEventConsumer.onMessage`: the deferred
`updateOffset` records the message's offset for its partition on every
return path; a JSON decode failure or a failed shared-users query
returns the error; otherwise the changed user is force-added to the
shared-users map and the notifier is invoked once per user in that
map, with the message's stream position and the changed user as
subject. -/
def onMessage (e : KeyChangeEnv) (partitionToOffset : List (Int × Int))
    (msg : ConsumerMessage) : OnMessageOut :=
  let updated := kinsert partitionToOffset msg.partition msg.offset
  match e.unmarshalDeviceMessage msg.value with
  | Except.error err =>
    { error := some err, notified := [], partitionToOffset := updated }
  | Except.ok output =>
    match e.querySharedUsers output.userID with
    | Except.error err =>
      { error := some err, notified := [], partitionToOffset := updated }
    | Except.ok userIDsToCount =>
      let withSelf := kinsert userIDsToCount output.userID 1
      let posUpdate : StreamingToken :=
        { deviceListPosition := { offset := msg.offset, partition := msg.partition } }
      { error := none
        notified := withSelf.map (fun p =>
          { posUpdate := posUpdate, wakeUserID := p.1
            keyChangeUserID := output.userID })
        partitionToOffset := updated }

/-! ### Concrete scenarios used by the claim checks -/

/-- A lookup request for a remote server. -/
def reqA : PublicKeyLookupRequest := { serverName := "remote.org", keyID := "ed25519:a" }

/-- A lookup request for a second remote server. -/
def reqB : PublicKeyLookupRequest := { serverName := "other.net", keyID := "ed25519:b" }

/-- A lookup request for the resolver's own server. -/
def reqSelf : PublicKeyLookupRequest := { serverName := "self.org", keyID := "ed25519:s" }

/-- A stale result with `validUntil = 200`. -/
def res200 : PublicKeyLookupResult := { key := [1], expiredTS := 0, validUntilTS := 200 }

/-- A staler result with `validUntil = 150`. -/
def res150 : PublicKeyLookupResult := { key := [2], expiredTS := 0, validUntilTS := 150 }

/-- A result for `reqA` that is valid at `now = 1000`. -/
def resFreshA : PublicKeyLookupResult := { key := [3], expiredTS := 0, validUntilTS := 5000 }

/-- A result for `reqB` that is valid at `now = 1000`. -/
def resFreshB : PublicKeyLookupResult := { key := [4], expiredTS := 0, validUntilTS := 6000 }

/-- A resolver for `self.org` at `now = 1000`: empty database, always
succeeding store, no fetchers. -/
def baseEnv : KeyEnv :=
  { serverName := "self.org", serverPublicKey := [9], serverKeyID := "ed25519:s"
    serverKeyValidity := 3600, now := 1000
    dbFetch := fun _ => Except.ok []
    dbStore := fun _ => none
    fetchers := [] }

/-- `baseEnv` with two fetchers answering `reqA` with `validUntil =
200` and then `validUntil = 150` (both stale at `now = 1000`). -/
def envC1 : KeyEnv :=
  { baseEnv with fetchers :=
      [⟨"f1", fun _ => Except.ok [(reqA, res200)]⟩,
       ⟨"f2", fun _ => Except.ok [(reqA, res150)]⟩] }

/-- `baseEnv` with two fetchers answering `reqA` (first) and `reqB`
(second) with fresh keys, and a store that fails exactly on batches
containing `reqA` — so the first fetcher's store-back fails. -/
def envC2 : KeyEnv :=
  { baseEnv with
    dbStore := fun batch =>
      if kfind batch reqA = none then none else some "disk full"
    fetchers :=
      [⟨"f1", fun _ => Except.ok [(reqA, resFreshA)]⟩,
       ⟨"f2", fun _ => Except.ok [(reqB, resFreshB)]⟩] }

/-- `baseEnv` whose database fetch always fails. -/
def envDbFail : KeyEnv :=
  { baseEnv with dbFetch := fun _ => Except.error "db down" }

/-- `baseEnv` with one fetcher answering `reqA` with a fresh key. -/
def envC6 : KeyEnv :=
  { baseEnv with fetchers := [⟨"fetcher-one", fun _ => Except.ok [(reqA, resFreshA)]⟩] }

/-- A consumer environment whose decode and query both succeed. -/
def envC9 : KeyChangeEnv :=
  { unmarshalDeviceMessage := fun _ => Except.ok { userID := "@alice:x" }
    querySharedUsers := fun _ => Except.ok [("@bob:x", 2)] }

/-- A consumer environment whose JSON decode always fails. -/
def envC10 : KeyChangeEnv :=
  { unmarshalDeviceMessage := fun _ => Except.error "bad json"
    querySharedUsers := fun _ => Except.ok [] }

/-- A consumed message on partition 3 at offset 9. -/
def msgP3O9 : ConsumerMessage := { partition := 3, offset := 9, value := [0] }

/-! ### Lemmas about the association-list operations -/

theorem kfind_kinsert_self {α β : Type} [DecidableEq α]
    (m : List (α × β)) (k : α) (v : β) :
    kfind (kinsert m k v) k = some v := by
  induction m with
  | nil => simp [kinsert, kfind]
  | cons p rest ih =>
    obtain ⟨a, b⟩ := p
    by_cases h : a = k
    · simp [kinsert, kfind, h]
    · simp [kinsert, kfind, h, ih]

theorem kfind_kinsert_ne {α β : Type} [DecidableEq α]
    (m : List (α × β)) (k q : α) (v : β) (h : q ≠ k) :
    kfind (kinsert m k v) q = kfind m q := by
  have hkq : ¬k = q := fun hk => h hk.symm
  induction m with
  | nil => simp [kinsert, kfind, hkq]
  | cons p rest ih =>
    obtain ⟨a, b⟩ := p
    by_cases hak : a = k
    · subst hak
      simp [kinsert, kfind, hkq]
    · simp only [kinsert, if_neg hak]
      by_cases haq : a = q
      · simp [kfind, haq]
      · simp [kfind, haq, ih]

theorem kfind_kerase_self {α β : Type} [DecidableEq α]
    (m : List (α × β)) (k : α) :
    kfind (kerase m k) k = none := by
  induction m with
  | nil => simp [kerase, kfind]
  | cons p rest ih =>
    obtain ⟨a, b⟩ := p
    by_cases h : a = k
    · simp [kerase, h, ih]
    · simp [kerase, kfind, h, ih]

theorem kfind_kerase_some {α β : Type} [DecidableEq α]
    (m : List (α × β)) (k q : α) (v : β)
    (h : kfind (kerase m k) q = some v) : kfind m q = some v := by
  induction m with
  | nil => simpa [kerase, kfind] using h
  | cons p rest ih =>
    obtain ⟨a, b⟩ := p
    by_cases hak : a = k
    · rw [kerase, if_pos hak] at h
      by_cases haq : a = q
      · subst haq
        rw [hak] at h
        rw [kfind_kerase_self] at h
        exact absurd h (by simp)
      · rw [kfind, if_neg haq]
        exact ih h
    · rw [kerase, if_neg hak] at h
      by_cases haq : a = q
      · rw [kfind, if_pos haq] at h ⊢
        exact h
      · rw [kfind, if_neg haq] at h ⊢
        exact ih h

theorem mem_kkeys_kerase {α β : Type} [DecidableEq α]
    (m : List (α × β)) (k q : α)
    (h : q ∈ kkeys (kerase m k)) : q ∈ kkeys m := by
  induction m with
  | nil => simpa [kerase, kkeys] using h
  | cons p rest ih =>
    obtain ⟨a, b⟩ := p
    by_cases hak : a = k
    · rw [kerase, if_pos hak] at h
      simp only [kkeys, List.map_cons, List.mem_cons]
      exact Or.inr (ih h)
    · rw [kerase, if_neg hak] at h
      simp only [kkeys, List.map_cons, List.mem_cons] at h ⊢
      rcases h with h | h
      · exact Or.inl h
      · exact Or.inr (ih h)

theorem not_mem_kkeys_kerase_self {α β : Type} [DecidableEq α]
    (m : List (α × β)) (k : α) : k ∉ kkeys (kerase m k) := by
  induction m with
  | nil => simp [kerase, kkeys]
  | cons p rest ih =>
    obtain ⟨a, b⟩ := p
    by_cases hak : a = k
    · rw [kerase, if_pos hak]
      exact ih
    · rw [kerase, if_neg hak]
      simp only [kkeys, List.map_cons, List.mem_cons]
      rintro (h | h)
      · exact hak h.symm
      · exact ih h

theorem mem_kkeys_kinsert {α β : Type} [DecidableEq α]
    (m : List (α × β)) (k q : α) (v : β)
    (h : q ∈ kkeys (kinsert m k v)) : q = k ∨ q ∈ kkeys m := by
  induction m with
  | nil => simpa [kinsert, kkeys] using h
  | cons p rest ih =>
    obtain ⟨a, b⟩ := p
    by_cases hak : a = k
    · rw [kinsert, if_pos hak] at h
      simp only [kkeys, List.map_cons, List.mem_cons] at h ⊢
      tauto
    · rw [kinsert, if_neg hak] at h
      simp only [kkeys, List.map_cons, List.mem_cons] at h ⊢
      rcases h with h | h
      · exact Or.inr (Or.inl h)
      · rcases ih h with h | h
        · exact Or.inl h
        · exact Or.inr (Or.inr h)

theorem mem_kkeys_kinsert_of_mem {α β : Type} [DecidableEq α]
    (m : List (α × β)) (k q : α) (v : β) (h : q ∈ kkeys m) :
    q ∈ kkeys (kinsert m k v) := by
  induction m with
  | nil => simp [kkeys] at h
  | cons p rest ih =>
    obtain ⟨a, b⟩ := p
    simp only [kkeys, List.map_cons, List.mem_cons] at h
    by_cases hak : a = k
    · rw [kinsert, if_pos hak]
      simp only [kkeys, List.map_cons, List.mem_cons]
      rcases h with h | h
      · exact Or.inl h
      · exact Or.inr h
    · rw [kinsert, if_neg hak]
      simp only [kkeys, List.map_cons, List.mem_cons]
      rcases h with h | h
      · exact Or.inl h
      · exact Or.inr (ih h)

theorem self_mem_kkeys_kinsert {α β : Type} [DecidableEq α]
    (m : List (α × β)) (k : α) (v : β) :
    k ∈ kkeys (kinsert m k v) := by
  induction m with
  | nil => simp [kinsert, kkeys]
  | cons p rest ih =>
    obtain ⟨a, b⟩ := p
    by_cases hak : a = k
    · rw [kinsert, if_pos hak]
      simp [kkeys, hak]
    · rw [kinsert, if_neg hak]
      simp only [kkeys, List.map_cons, List.mem_cons]
      exact Or.inr ih

theorem mem_kkeys_kinsert_iff {α β : Type} [DecidableEq α]
    (m : List (α × β)) (k q : α) (v : β) :
    q ∈ kkeys (kinsert m k v) ↔ q ∈ kkeys m ∨ q = k := by
  constructor
  · intro h
    rcases mem_kkeys_kinsert m k q v h with h | h
    · exact Or.inr h
    · exact Or.inl h
  · rintro (h | h)
    · exact mem_kkeys_kinsert_of_mem m k q v h
    · exact h ▸ self_mem_kkeys_kinsert m k v

theorem kkeys_kinsert_nodup {α β : Type} [DecidableEq α]
    (m : List (α × β)) (k : α) (v : β) (h : (kkeys m).Nodup) :
    (kkeys (kinsert m k v)).Nodup := by
  induction m with
  | nil => simp [kinsert, kkeys]
  | cons p rest ih =>
    obtain ⟨a, b⟩ := p
    simp only [kkeys, List.map_cons, List.nodup_cons] at h
    by_cases hak : a = k
    · rw [kinsert, if_pos hak]
      simp only [kkeys, List.map_cons, List.nodup_cons]
      exact h
    · rw [kinsert, if_neg hak]
      simp only [kkeys, List.map_cons, List.nodup_cons]
      refine ⟨?_, ih h.2⟩
      intro hmem
      rcases mem_kkeys_kinsert rest k a v hmem with h1 | h1
      · exact hak h1
      · exact h.1 h1

theorem count_nodup {α : Type} [DecidableEq α] (l : List α) (h : l.Nodup) (u : α) :
    l.count u = if u ∈ l then 1 else 0 := by
  induction l with
  | nil => simp
  | cons a rest ih =>
    simp only [List.nodup_cons] at h
    by_cases hau : a = u
    · subst hau
      rw [List.count_cons_self, ih h.2, if_neg h.1, if_pos (List.mem_cons_self a rest)]
    · have hua : ¬u = a := fun hh => hau hh.symm
      rw [List.count_cons_of_ne hua, ih h.2]
      by_cases hm : u ∈ rest
      · rw [if_pos hm, if_pos (List.mem_cons_of_mem a hm)]
      · rw [if_neg hm, if_neg (by simp [hua, hm])]

/-! ### Lemmas about the cascade passes -/

theorem localPass_requests_mono (sn : String) (self : PublicKeyLookupResult)
    (snap : List (PublicKeyLookupRequest × Timestamp))
    (q : PublicKeyLookupRequest) :
    ∀ (requests : ReqMap) (results : ResMap), q ∉ kkeys requests →
      q ∉ kkeys (localPass sn self snap requests results).1 := by
  induction snap with
  | nil => intro requests results hq; simpa [localPass] using hq
  | cons p rest ih =>
    obtain ⟨req, t⟩ := p
    intro requests results hq
    by_cases h : req.serverName = sn
    · rw [localPass, if_pos h]
      exact ih _ _ (fun hmem => hq (mem_kkeys_kerase requests req q hmem))
    · rw [localPass, if_neg h]
      exact ih _ _ hq

theorem localPass_requests_self (sn : String) (self : PublicKeyLookupResult)
    (snap : List (PublicKeyLookupRequest × Timestamp))
    (q : PublicKeyLookupRequest) (hself : q.serverName = sn) :
    ∀ (requests : ReqMap) (results : ResMap), q ∈ kkeys snap →
      q ∉ kkeys (localPass sn self snap requests results).1 := by
  induction snap with
  | nil => intro requests results hq; simp [kkeys] at hq
  | cons p rest ih =>
    obtain ⟨req, t⟩ := p
    intro requests results hq
    simp only [kkeys, List.map_cons, List.mem_cons] at hq
    by_cases h : req.serverName = sn
    · rw [localPass, if_pos h]
      rcases hq with hq | hq
      · subst hq
        exact localPass_requests_mono sn self rest q _ _
          (not_mem_kkeys_kerase_self requests q)
      · exact ih _ _ hq
    · rw [localPass, if_neg h]
      rcases hq with hq | hq
      · exact absurd (hq ▸ hself) h
      · exact ih _ _ hq

theorem localPass_results_mono (sn : String) (self : PublicKeyLookupResult)
    (snap : List (PublicKeyLookupRequest × Timestamp))
    (q : PublicKeyLookupRequest) :
    ∀ (requests : ReqMap) (results : ResMap), kfind results q = some self →
      kfind (localPass sn self snap requests results).2 q = some self := by
  induction snap with
  | nil => intro requests results hq; simpa [localPass] using hq
  | cons p rest ih =>
    obtain ⟨req, t⟩ := p
    intro requests results hq
    by_cases h : req.serverName = sn
    · rw [localPass, if_pos h]
      by_cases hrq : q = req
      · subst hrq
        exact ih _ _ (kfind_kinsert_self results q self)
      · exact ih _ _ (by rw [kfind_kinsert_ne results req q self hrq]; exact hq)
    · rw [localPass, if_neg h]
      exact ih _ _ hq

theorem localPass_results_self (sn : String) (self : PublicKeyLookupResult)
    (snap : List (PublicKeyLookupRequest × Timestamp))
    (q : PublicKeyLookupRequest) (hself : q.serverName = sn) :
    ∀ (requests : ReqMap) (results : ResMap), q ∈ kkeys snap →
      kfind (localPass sn self snap requests results).2 q = some self := by
  induction snap with
  | nil => intro requests results hq; simp [kkeys] at hq
  | cons p rest ih =>
    obtain ⟨req, t⟩ := p
    intro requests results hq
    simp only [kkeys, List.map_cons, List.mem_cons] at hq
    by_cases h : req.serverName = sn
    · rw [localPass, if_pos h]
      rcases hq with hq | hq
      · subst hq
        exact localPass_results_mono sn self rest q _ _
          (kfind_kinsert_self results q self)
      · exact ih _ _ hq
    · rw [localPass, if_neg h]
      rcases hq with hq | hq
      · exact absurd (hq ▸ hself) h
      · exact ih _ _ hq

theorem localPass_requests_subfind (sn : String) (self : PublicKeyLookupResult)
    (snap : List (PublicKeyLookupRequest × Timestamp))
    (q : PublicKeyLookupRequest) (v : Timestamp) :
    ∀ (requests : ReqMap) (results : ResMap),
      kfind (localPass sn self snap requests results).1 q = some v →
      kfind requests q = some v := by
  induction snap with
  | nil => intro requests results hq; simpa [localPass] using hq
  | cons p rest ih =>
    obtain ⟨req, t⟩ := p
    intro requests results hq
    by_cases h : req.serverName = sn
    · rw [localPass, if_pos h] at hq
      exact kfind_kerase_some requests req q v (ih _ _ hq)
    · rw [localPass, if_neg h] at hq
      exact ih _ _ hq

theorem dbPass_requests_mono (now : Timestamp) (dbResults : ResMap)
    (q : PublicKeyLookupRequest) :
    ∀ (requests : ReqMap) (results : ResMap), q ∉ kkeys requests →
      q ∉ kkeys (dbPass now dbResults requests results).1 := by
  induction dbResults with
  | nil => intro requests results hq; simpa [dbPass] using hq
  | cons p rest ih =>
    obtain ⟨req, res⟩ := p
    intro requests results hq
    rw [dbPass]
    by_cases h : wasValidAt res now true
    · rw [if_pos h]
      exact ih _ _ (fun hmem => hq (mem_kkeys_kerase requests req q hmem))
    · rw [if_neg h]
      exact ih _ _ hq

theorem dbPass_results_untouched (now : Timestamp) (dbResults : ResMap)
    (q : PublicKeyLookupRequest) (hq : q ∉ kkeys dbResults) :
    ∀ (requests : ReqMap) (results : ResMap),
      kfind (dbPass now dbResults requests results).2 q = kfind results q := by
  induction dbResults with
  | nil => intro requests results; simp [dbPass]
  | cons p rest ih =>
    obtain ⟨req, res⟩ := p
    simp only [kkeys, List.map_cons, List.mem_cons, not_or] at hq
    intro requests results
    rw [dbPass, ih (by simpa [kkeys] using hq.2)]
    exact kfind_kinsert_ne results req q res hq.1

theorem dbPass_requests_subfind (now : Timestamp) (dbResults : ResMap)
    (q : PublicKeyLookupRequest) (v : Timestamp) :
    ∀ (requests : ReqMap) (results : ResMap),
      kfind (dbPass now dbResults requests results).1 q = some v →
      kfind requests q = some v := by
  induction dbResults with
  | nil => intro requests results hq; simpa [dbPass] using hq
  | cons p rest ih =>
    obtain ⟨req, res⟩ := p
    intro requests results hq
    rw [dbPass] at hq
    by_cases h : wasValidAt res now true
    · rw [if_pos h] at hq
      exact kfind_kerase_some requests req q v (ih _ _ hq)
    · rw [if_neg h] at hq
      exact ih _ _ hq

theorem fetcherPass_requests_mono (sn : String) (now : Timestamp)
    (frs : ResMap) (q : PublicKeyLookupRequest) :
    ∀ (requests : ReqMap) (results : ResMap) (storeResults : ResMap),
      q ∉ kkeys requests →
      q ∉ kkeys (fetcherPass sn now frs requests results storeResults).1 := by
  induction frs with
  | nil => intro requests results storeResults hq; simpa [fetcherPass] using hq
  | cons p rest ih =>
    obtain ⟨req, res⟩ := p
    intro requests results storeResults hq
    rw [fetcherPass]
    by_cases h : wasValidAt res now true
    · rw [if_pos h]
      exact ih _ _ _ (fun hmem => hq (mem_kkeys_kerase requests req q hmem))
    · rw [if_neg h]
      exact ih _ _ _ hq

theorem fetcherPass_results_untouched (sn : String) (now : Timestamp)
    (frs : ResMap) (q : PublicKeyLookupRequest) (hq : q ∉ kkeys frs) :
    ∀ (requests : ReqMap) (results : ResMap) (storeResults : ResMap),
      kfind (fetcherPass sn now frs requests results storeResults).2.1 q =
        kfind results q := by
  induction frs with
  | nil => intro requests results storeResults; simp [fetcherPass]
  | cons p rest ih =>
    obtain ⟨req, res⟩ := p
    simp only [kkeys, List.map_cons, List.mem_cons, not_or] at hq
    intro requests results storeResults
    rw [fetcherPass, ih (by simpa [kkeys] using hq.2)]
    exact kfind_kinsert_ne results req q res hq.1

theorem storeStage_no_self (sn : String) (results storeResults : ResMap)
    (req : PublicKeyLookupRequest) (res : PublicKeyLookupResult)
    (hst : ∀ p ∈ kkeys storeResults, p.serverName ≠ sn) :
    ∀ p ∈ kkeys (storeStage sn results storeResults req res),
      p.serverName ≠ sn := by
  have hins : req.serverName ≠ sn →
      ∀ p ∈ kkeys (kinsert storeResults req res), p.serverName ≠ sn := by
    intro hname p hp
    rcases mem_kkeys_kinsert storeResults req p res hp with h | h
    · exact h ▸ hname
    · exact hst p h
  unfold storeStage
  cases hfd : kfind results req with
  | none =>
    by_cases hname : req.serverName = sn
    · simpa [hname] using hst
    · simpa [hname] using hins hname
  | some prev =>
    by_cases hvu : res.validUntilTS > prev.validUntilTS
    · by_cases hname : req.serverName = sn
      · simpa [hvu, hname] using hst
      · simpa [hvu, hname] using hins hname
    · simpa [hvu] using hst

theorem storeStage_keys_sub (sn : String) (results storeResults : ResMap)
    (req : PublicKeyLookupRequest) (res : PublicKeyLookupResult) :
    ∀ p ∈ kkeys (storeStage sn results storeResults req res),
      p = req ∨ p ∈ kkeys storeResults := by
  intro p hp
  unfold storeStage at hp
  cases hfd : kfind results req with
  | none =>
    rw [hfd] at hp
    have hp' : p ∈ kkeys (if req.serverName = sn then storeResults
        else kinsert storeResults req res) := hp
    by_cases hname : req.serverName = sn
    · rw [if_pos hname] at hp'
      exact Or.inr hp'
    · rw [if_neg hname] at hp'
      exact mem_kkeys_kinsert storeResults req p res hp'
  | some prev =>
    rw [hfd] at hp
    have hp' : p ∈ kkeys (if res.validUntilTS > prev.validUntilTS then
        (if req.serverName = sn then storeResults
          else kinsert storeResults req res)
        else storeResults) := hp
    by_cases hvu : res.validUntilTS > prev.validUntilTS
    · rw [if_pos hvu] at hp'
      by_cases hname : req.serverName = sn
      · rw [if_pos hname] at hp'
        exact Or.inr hp'
      · rw [if_neg hname] at hp'
        exact mem_kkeys_kinsert storeResults req p res hp'
    · rw [if_neg hvu] at hp'
      exact Or.inr hp'

theorem fetcherPass_store_no_self (sn : String) (now : Timestamp)
    (frs : ResMap) :
    ∀ (requests : ReqMap) (results : ResMap) (storeResults : ResMap),
      (∀ p ∈ kkeys storeResults, p.serverName ≠ sn) →
      ∀ p ∈ kkeys (fetcherPass sn now frs requests results storeResults).2.2,
        p.serverName ≠ sn := by
  induction frs with
  | nil =>
    intro requests results storeResults hst p hp
    rw [fetcherPass] at hp
    exact hst p hp
  | cons pr rest ih =>
    obtain ⟨req, res⟩ := pr
    intro requests results storeResults hst p hp
    rw [fetcherPass] at hp
    exact ih _ _ _ (storeStage_no_self sn results storeResults req res hst) p hp

theorem fetcherPass_requests_subfind (sn : String) (now : Timestamp)
    (frs : ResMap) (q : PublicKeyLookupRequest) (v : Timestamp) :
    ∀ (requests : ReqMap) (results : ResMap) (storeResults : ResMap),
      kfind (fetcherPass sn now frs requests results storeResults).1 q = some v →
      kfind requests q = some v := by
  induction frs with
  | nil => intro requests results storeResults hq; simpa [fetcherPass] using hq
  | cons p rest ih =>
    obtain ⟨req, res⟩ := p
    intro requests results storeResults hq
    rw [fetcherPass] at hq
    by_cases h : wasValidAt res now true
    · rw [if_pos h] at hq
      exact kfind_kerase_some requests req q v (ih _ _ _ hq)
    · rw [if_neg h] at hq
      exact ih _ _ _ hq

/-! ### Lemmas about the fetcher loop -/

theorem fetcherLoop_store_no_self (e : KeyEnv) (ctx : Ctx) (now : Timestamp)
    (fs : List Fetcher) :
    ∀ (requests : ReqMap) (results : ResMap),
      ∀ ev ∈ (fetcherLoop e ctx now fs requests results).2.2,
        ∀ q ∈ kkeys (storeBatchOf ev), q.serverName ≠ e.serverName := by
  induction fs with
  | nil =>
    intro requests results ev hev
    simp [fetcherLoop] at hev
  | cons f fs ih =>
    intro requests results ev hev
    rw [fetcherLoop] at hev
    by_cases hemp : requests.isEmpty
    · rw [if_pos hemp] at hev
      simp at hev
    · rw [if_neg hemp] at hev
      simp only [List.mem_append] at hev
      rcases hev with hev | hev
      · cases hfr : f.fetch requests with
        | error msg =>
          simp only [handleFetcherKeys, hfr, List.mem_singleton] at hev
          subst hev
          intro q hq
          simp [storeBatchOf, kkeys] at hq
        | ok fetcherResults =>
          cases hsto : e.dbStore
              (fetcherPass e.serverName now fetcherResults requests results []).2.2 with
          | none =>
            simp only [handleFetcherKeys, hfr, hsto, List.mem_cons,
              List.mem_singleton, List.not_mem_nil, or_false] at hev
            rcases hev with hev | hev
            · subst hev; intro q hq; simp [storeBatchOf, kkeys] at hq
            · subst hev
              intro q hq
              exact fetcherPass_store_no_self e.serverName now fetcherResults
                requests results [] (by intro p hp; simp [kkeys] at hp) q hq
          | some msg =>
            simp only [handleFetcherKeys, hfr, hsto, List.mem_cons,
              List.mem_singleton, List.not_mem_nil, or_false] at hev
            rcases hev with hev | hev
            · subst hev; intro q hq; simp [storeBatchOf, kkeys] at hq
            · subst hev
              intro q hq
              exact fetcherPass_store_no_self e.serverName now fetcherResults
                requests results [] (by intro p hp; simp [kkeys] at hp) q hq
      · exact ih _ _ ev hev

theorem fetcherLoop_event_ctx (e : KeyEnv) (ctx : Ctx) (now : Timestamp)
    (fs : List Fetcher) :
    ∀ (requests : ReqMap) (results : ResMap),
      ∀ ev ∈ (fetcherLoop e ctx now fs requests results).2.2,
        eventCtx ev = ctx ∨ eventCtx ev = Ctx.withTimeout ctx 30000 := by
  induction fs with
  | nil =>
    intro requests results ev hev
    simp [fetcherLoop] at hev
  | cons f fs ih =>
    intro requests results ev hev
    rw [fetcherLoop] at hev
    by_cases hemp : requests.isEmpty
    · rw [if_pos hemp] at hev
      simp at hev
    · rw [if_neg hemp] at hev
      simp only [List.mem_append] at hev
      rcases hev with hev | hev
      · cases hfr : f.fetch requests with
        | error msg =>
          simp only [handleFetcherKeys, hfr, List.mem_singleton] at hev
          subst hev
          exact Or.inr rfl
        | ok fetcherResults =>
          cases hsto : e.dbStore
              (fetcherPass e.serverName now fetcherResults requests results []).2.2 with
          | none =>
            simp only [handleFetcherKeys, hfr, hsto, List.mem_cons,
              List.mem_singleton, List.not_mem_nil, or_false] at hev
            rcases hev with hev | hev
            · subst hev; exact Or.inr rfl
            · subst hev; exact Or.inl rfl
          | some msg =>
            simp only [handleFetcherKeys, hfr, hsto, List.mem_cons,
              List.mem_singleton, List.not_mem_nil, or_false] at hev
            rcases hev with hev | hev
            · subst hev; exact Or.inr rfl
            · subst hev; exact Or.inl rfl
      · exact ih _ _ ev hev

theorem fetcherLoop_requests_subfind (e : KeyEnv) (ctx : Ctx) (now : Timestamp)
    (fs : List Fetcher) (q : PublicKeyLookupRequest) (v : Timestamp) :
    ∀ (requests : ReqMap) (results : ResMap),
      kfind (fetcherLoop e ctx now fs requests results).1 q = some v →
      kfind requests q = some v := by
  induction fs with
  | nil =>
    intro requests results hq
    simpa [fetcherLoop] using hq
  | cons f fs ih =>
    intro requests results hq
    rw [fetcherLoop] at hq
    by_cases hemp : requests.isEmpty
    · rw [if_pos hemp] at hq
      exact hq
    · rw [if_neg hemp] at hq
      have hq2 : kfind (fetcherLoop e ctx now fs
          (handleFetcherKeys e ctx now f requests results).requests
          (handleFetcherKeys e ctx now f requests results).results).1 q = some v := hq
      have hq3 := ih _ _ hq2
      cases hfr : f.fetch requests with
      | error msg =>
        simp only [handleFetcherKeys, hfr] at hq3
        exact hq3
      | ok fetcherResults =>
        cases hsto : e.dbStore
            (fetcherPass e.serverName now fetcherResults requests results []).2.2 with
        | none =>
          simp only [handleFetcherKeys, hfr, hsto] at hq3
          exact fetcherPass_requests_subfind e.serverName now fetcherResults
            q v requests results [] hq3
        | some msg =>
          simp only [handleFetcherKeys, hfr, hsto] at hq3
          exact fetcherPass_requests_subfind e.serverName now fetcherResults
            q v requests results [] hq3

theorem fetcherLoop_self_invariant (e : KeyEnv) (ctx : Ctx) (now : Timestamp)
    (fs : List Fetcher) (r : PublicKeyLookupRequest) (self : PublicKeyLookupResult)
    (hrself : r.serverName = e.serverName)
    (hfSub : ∀ f ∈ fs, ∀ p m, f.fetch p = Except.ok m →
      ∀ q ∈ kkeys m, q ∈ kkeys p) :
    ∀ (requests : ReqMap) (results : ResMap),
      r ∉ kkeys requests → kfind results r = some self →
      kfind (fetcherLoop e ctx now fs requests results).2.1 r = some self ∧
      r ∉ kkeys (fetcherLoop e ctx now fs requests results).1 ∧
      ∀ ev ∈ (fetcherLoop e ctx now fs requests results).2.2, r ∉ eventReqs ev := by
  induction fs with
  | nil =>
    intro requests results hreq hres
    refine ⟨by simpa [fetcherLoop] using hres, by simpa [fetcherLoop] using hreq, ?_⟩
    intro ev hev
    simp [fetcherLoop] at hev
  | cons f fs ih =>
    intro requests results hreq hres
    rw [fetcherLoop]
    by_cases hemp : requests.isEmpty
    · rw [if_pos hemp]
      exact ⟨hres, hreq, by intro ev hev; simp at hev⟩
    · rw [if_neg hemp]
      have hfHead := hfSub f (List.mem_cons_self f fs)
      have hfTail : ∀ f' ∈ fs, ∀ p m, f'.fetch p = Except.ok m →
          ∀ q ∈ kkeys m, q ∈ kkeys p :=
        fun f' hf' => hfSub f' (List.mem_cons_of_mem f hf')
      show kfind (fetcherLoop e ctx now fs
            (handleFetcherKeys e ctx now f requests results).requests
            (handleFetcherKeys e ctx now f requests results).results).2.1 r =
          some self ∧
        r ∉ kkeys (fetcherLoop e ctx now fs
            (handleFetcherKeys e ctx now f requests results).requests
            (handleFetcherKeys e ctx now f requests results).results).1 ∧
        ∀ ev ∈ (handleFetcherKeys e ctx now f requests results).events ++
            (fetcherLoop e ctx now fs
              (handleFetcherKeys e ctx now f requests results).requests
              (handleFetcherKeys e ctx now f requests results).results).2.2,
          r ∉ eventReqs ev
      cases hfr : f.fetch requests with
      | error msg =>
        simp only [handleFetcherKeys, hfr]
        obtain ⟨h1, h2, h3⟩ := ih hfTail requests results hreq hres
        refine ⟨h1, h2, ?_⟩
        intro ev hev
        simp only [List.cons_append, List.nil_append, List.mem_cons] at hev
        rcases hev with hev | hev
        · subst hev
          simpa [eventReqs] using hreq
        · exact h3 ev hev
      | ok fetcherResults =>
        have hrfrs : r ∉ kkeys fetcherResults := by
          intro hmem
          exact hreq (hfHead requests fetcherResults hfr r hmem)
        have hreq2 : r ∉ kkeys
            (fetcherPass e.serverName now fetcherResults requests results []).1 :=
          fetcherPass_requests_mono e.serverName now fetcherResults r
            requests results [] hreq
        have hres2 : kfind
            (fetcherPass e.serverName now fetcherResults requests results []).2.1 r =
            some self := by
          rw [fetcherPass_results_untouched e.serverName now fetcherResults r hrfrs]
          exact hres
        have hstore : r ∉ kkeys
            (fetcherPass e.serverName now fetcherResults requests results []).2.2 := by
          intro hmem
          exact fetcherPass_store_no_self e.serverName now fetcherResults
            requests results [] (by intro p hp; simp [kkeys] at hp) r hmem hrself
        obtain ⟨h1, h2, h3⟩ := ih hfTail _ _ hreq2 hres2
        cases hsto : e.dbStore
            (fetcherPass e.serverName now fetcherResults requests results []).2.2 with
        | none =>
          simp only [handleFetcherKeys, hfr, hsto]
          refine ⟨h1, h2, ?_⟩
          intro ev hev
          simp only [List.cons_append, List.nil_append, List.mem_cons] at hev
          rcases hev with hev | hev | hev
          · subst hev; simpa [eventReqs] using hreq
          · subst hev; simpa [eventReqs] using hstore
          · exact h3 ev hev
        | some msg =>
          simp only [handleFetcherKeys, hfr, hsto]
          refine ⟨h1, h2, ?_⟩
          intro ev hev
          simp only [List.cons_append, List.nil_append, List.mem_cons] at hev
          rcases hev with hev | hev | hev
          · subst hev; simpa [eventReqs] using hreq
          · subst hev; simpa [eventReqs] using hstore
          · exact h3 ev hev

/-! ### Lemmas about the completeness check -/

theorem firstUnsatisfied_eq_none (orig : ReqMap) (results : ResMap) :
    firstUnsatisfied orig results = none ↔
      ∀ q ∈ kkeys orig, kfind results q ≠ none := by
  induction orig with
  | nil => simp [firstUnsatisfied, kkeys]
  | cons p rest ih =>
    obtain ⟨req, t⟩ := p
    rw [firstUnsatisfied]
    cases hfd : kfind results req with
    | none =>
      simp only [kkeys, List.map_cons, List.mem_cons]
      constructor
      · intro h; exact absurd h (by simp)
      · intro h
        exact absurd hfd (h req (Or.inl rfl))
    | some res =>
      simp only [kkeys, List.map_cons, List.mem_cons] at ih ⊢
      rw [ih]
      constructor
      · intro h q hq
        rcases hq with hq | hq
        · subst hq; simp [hfd]
        · exact h q hq
      · intro h q hq
        exact h q (Or.inr hq)

theorem firstUnsatisfied_eq_some (orig : ReqMap) (results : ResMap)
    (q : PublicKeyLookupRequest)
    (h : firstUnsatisfied orig results = some q) :
    q ∈ kkeys orig ∧ kfind results q = none := by
  induction orig with
  | nil => simp [firstUnsatisfied] at h
  | cons p rest ih =>
    obtain ⟨req, t⟩ := p
    rw [firstUnsatisfied] at h
    cases hfd : kfind results req with
    | none =>
      rw [hfd] at h
      simp only [Option.some_inj] at h
      subst h
      exact ⟨by simp [kkeys], hfd⟩
    | some res =>
      rw [hfd] at h
      obtain ⟨h1, h2⟩ := ih h
      exact ⟨by simp only [kkeys, List.map_cons, List.mem_cons]; exact Or.inr h1, h2⟩

/-! ### Unfolding lemmas for `FetchKeys` -/

theorem FetchKeys_db_error (e : KeyEnv) (cctx : Ctx) (requests0 : ReqMap)
    (msg : String)
    (hdb : e.dbFetch (handleLocalKeys e requests0 []).1 = Except.error msg) :
    FetchKeys e cctx requests0 =
      { results := [], error := some (Err.dbErr msg)
        finalRequests := (handleLocalKeys e requests0 []).1
        trace := [Event.dbFetch Ctx.background (handleLocalKeys e requests0 []).1] } := by
  simp only [FetchKeys, handleDatabaseKeys, hdb]

theorem FetchKeys_db_ok_results (e : KeyEnv) (cctx : Ctx) (requests0 : ReqMap)
    (m : ResMap)
    (hdb : e.dbFetch (handleLocalKeys e requests0 []).1 = Except.ok m) :
    (FetchKeys e cctx requests0).results = (postLoop e requests0 m).2.1 := by
  simp only [FetchKeys, handleDatabaseKeys, hdb]
  split <;> rfl

theorem FetchKeys_db_ok_final (e : KeyEnv) (cctx : Ctx) (requests0 : ReqMap)
    (m : ResMap)
    (hdb : e.dbFetch (handleLocalKeys e requests0 []).1 = Except.ok m) :
    (FetchKeys e cctx requests0).finalRequests = (postLoop e requests0 m).1 := by
  simp only [FetchKeys, handleDatabaseKeys, hdb]
  split <;> rfl

theorem FetchKeys_db_ok_trace (e : KeyEnv) (cctx : Ctx) (requests0 : ReqMap)
    (m : ResMap)
    (hdb : e.dbFetch (handleLocalKeys e requests0 []).1 = Except.ok m) :
    (FetchKeys e cctx requests0).trace =
      Event.dbFetch Ctx.background (handleLocalKeys e requests0 []).1 ::
        (postLoop e requests0 m).2.2 := by
  simp only [FetchKeys, handleDatabaseKeys, hdb]
  split <;> rfl

theorem FetchKeys_db_ok_error (e : KeyEnv) (cctx : Ctx) (requests0 : ReqMap)
    (m : ResMap)
    (hdb : e.dbFetch (handleLocalKeys e requests0 []).1 = Except.ok m) :
    ((FetchKeys e cctx requests0).error = none ↔
      firstUnsatisfied requests0 (postLoop e requests0 m).2.1 = none) ∧
    (∀ err, (FetchKeys e cctx requests0).error = some err →
      ∃ req, firstUnsatisfied requests0 (postLoop e requests0 m).2.1 = some req ∧
        err = Err.unsat req) := by
  simp only [FetchKeys, handleDatabaseKeys, hdb]
  constructor
  · split
    next req heq =>
      rw [show firstUnsatisfied requests0 (postLoop e requests0 m).2.1 = some req
        from heq]
      simp
    next heq =>
      rw [show firstUnsatisfied requests0 (postLoop e requests0 m).2.1 = none
        from heq]
      simp
  · intro err herr
    split at herr
    next req heq =>
      have herr' : some (Err.unsat req) = some err := herr
      injection herr' with h2
      exact ⟨req,
        show firstUnsatisfied requests0 (postLoop e requests0 m).2.1 = some req
          from heq, h2.symm⟩
    next heq =>
      have herr' : (none : Option Err) = some err := herr
      exact absurd herr' (by simp)

/-! ### Claim C1 -/

/-- C1 counterexample: given fetcher results `validUntil = 200` (first
fetcher) then `validUntil = 150` (second fetcher) for the same request,
the final ResultSet holds the 150 entry and not the 200 one — the code
overwrites the result map with every fetcher result unconditionally,
so the claim's "retains the existing fresher entry" is false. -/
theorem C1_counterexample :
    kfind (FetchKeys envC1 (Ctx.other 0) [(reqA, 0)]).results reqA = some res150 ∧
    kfind (FetchKeys envC1 (Ctx.other 0) [(reqA, 0)]).results reqA ≠ some res200 := by
  decide

/-- C1 (amended): the strictly-greater `validUntil` comparison gates
only the per-fetcher StoreBatch, not the ResultSet. Given fetcher
results `validUntil = 200` then `validUntil = 150` for the same
request, the final ResultSet holds the 150 entry (every fetcher result
overwrites it), while the 150 entry is not staged into the second
fetcher's StoreBatch (its store batch is empty). -/
theorem C1_freshness_amended :
    kfind (FetchKeys envC1 (Ctx.other 0) [(reqA, 0)]).results reqA = some res150 ∧
    (FetchKeys envC1 (Ctx.other 0) [(reqA, 0)]).trace =
      [Event.dbFetch Ctx.background [(reqA, 0)],
       Event.fetcherFetch "f1" (Ctx.withTimeout Ctx.background 30000) [(reqA, 0)],
       Event.dbStore Ctx.background [(reqA, res200)],
       Event.fetcherFetch "f2" (Ctx.withTimeout Ctx.background 30000) [(reqA, 0)],
       Event.dbStore Ctx.background []] := by
  decide

/-! ### Claim C2 -/

/-- C2 counterexample: with two fetchers and a store that fails on the
first fetcher's batch, `handleFetcherKeys` does return the wrapped
store error, but `FetchKeys` swallows it: the second fetcher is still
consulted (its fetch event appears in the trace) and the whole call
returns no error — refuting "the whole call aborts: no further fetcher
is consulted and ResolveBatch returns an error". -/
theorem C2_counterexample :
    (handleFetcherKeys envC2 Ctx.background 1000
        ⟨"f1", fun _ => Except.ok [(reqA, resFreshA)]⟩
        [(reqA, 0), (reqB, 0)] []).error = some (Err.storeErr "disk full") ∧
    (FetchKeys envC2 (Ctx.other 0) [(reqA, 0), (reqB, 0)]).error = none ∧
    (FetchKeys envC2 (Ctx.other 0) [(reqA, 0), (reqB, 0)]).trace =
      [Event.dbFetch Ctx.background [(reqA, 0), (reqB, 0)],
       Event.fetcherFetch "f1" (Ctx.withTimeout Ctx.background 30000)
         [(reqA, 0), (reqB, 0)],
       Event.dbStore Ctx.background [(reqA, resFreshA)],
       Event.fetcherFetch "f2" (Ctx.withTimeout Ctx.background 30000) [(reqB, 0)],
       Event.dbStore Ctx.background [(reqB, resFreshB)]] := by
  decide

/-- C2 (amended): a store failure after a fetcher stage is wrapped by
`handleFetcherKeys` into an error distinct from fetch failures, but
the `FetchKeys` cascade loop logs and swallows it like a fetch
failure: remaining fetchers are still consulted and the call's
returned error is never a store (or fetch) failure — it can only be a
database error or an unsatisfiable-request error. -/
theorem C2_store_failure_amended (e : KeyEnv) (cctx : Ctx) (requests0 : ReqMap)
    (err : Err) (h : (FetchKeys e cctx requests0).error = some err) :
    Err.isStoreOrFetchFailure err = false := by
  cases hdb : e.dbFetch (handleLocalKeys e requests0 []).1 with
  | error msg =>
    rw [FetchKeys_db_error e cctx requests0 msg hdb] at h
    have h' : some (Err.dbErr msg) = some err := h
    injection h' with h2
    rw [← h2]
    rfl
  | ok m =>
    obtain ⟨_, herr2⟩ := FetchKeys_db_ok_error e cctx requests0 m hdb
    obtain ⟨req, _, hreq⟩ := herr2 err h
    rw [hreq]
    rfl

/-- C2 witness: the amended theorem applied to a run whose database
fetch fails, the one way `FetchKeys` does return an error here. -/
theorem C2_amended_witness :
    Err.isStoreOrFetchFailure (Err.dbErr "db down") = false :=
  C2_store_failure_amended envDbFail (Ctx.other 0) [] (Err.dbErr "db down") rfl

/-! ### Claim C3 -/

/-- C3: if the key database batch fetch fails, `FetchKeys` aborts
immediately and propagates the error: the returned ResultSet is `nil`
(so it contains nothing beyond what the self-key stage produced), and
the trace holds exactly the one database fetch event — no fetcher was
consulted and no store was issued. -/
theorem C3_database_error_aborts (e : KeyEnv) (cctx : Ctx) (requests0 : ReqMap)
    (msg : String)
    (hdb : e.dbFetch (handleLocalKeys e requests0 []).1 = Except.error msg) :
    (FetchKeys e cctx requests0).error = some (Err.dbErr msg) ∧
    (FetchKeys e cctx requests0).results = [] ∧
    (FetchKeys e cctx requests0).trace =
      [Event.dbFetch Ctx.background (handleLocalKeys e requests0 []).1] := by
  rw [FetchKeys_db_error e cctx requests0 msg hdb]
  exact ⟨rfl, rfl, rfl⟩

/-- C3 witness: a concrete run against a failing database. -/
theorem C3_witness :
    (FetchKeys envDbFail (Ctx.other 0) [(reqA, 0)]).error =
      some (Err.dbErr "db down") ∧
    (FetchKeys envDbFail (Ctx.other 0) [(reqA, 0)]).results = [] ∧
    (FetchKeys envDbFail (Ctx.other 0) [(reqA, 0)]).trace =
      [Event.dbFetch Ctx.background (handleLocalKeys envDbFail [(reqA, 0)] []).1] :=
  C3_database_error_aborts envDbFail (Ctx.other 0) [(reqA, 0)] "db down" rfl

/-! ### Claim C4 -/

/-- C4: for a request whose server name equals the resolver's own, the
request never appears in any batch handed to the database or to any
fetcher (fetch or store), and — provided the database succeeds and the
database and fetchers answer only requests they were asked, as their
interface contract states — its final ResultSet entry is the
synthesized self result, whose `expiredAt` is `PublicKeyNotExpired`
and whose `validUntil` is `now` plus the configured validity. -/
theorem C4_self_requests (e : KeyEnv) (cctx : Ctx) (requests0 : ReqMap)
    (r : PublicKeyLookupRequest)
    (hmem : r ∈ kkeys requests0)
    (hself : r.serverName = e.serverName)
    (hdbOk : ∀ p, ∃ dbr, e.dbFetch p = Except.ok dbr)
    (hdbSub : ∀ p dbr, e.dbFetch p = Except.ok dbr → ∀ q ∈ kkeys dbr, q ∈ kkeys p)
    (hfSub : ∀ f ∈ e.fetchers, ∀ p dbr, f.fetch p = Except.ok dbr →
      ∀ q ∈ kkeys dbr, q ∈ kkeys p) :
    kfind (FetchKeys e cctx requests0).results r = some (selfResult e) ∧
    (∀ ev ∈ (FetchKeys e cctx requests0).trace, r ∉ eventReqs ev) ∧
    (selfResult e).expiredTS = PublicKeyNotExpired ∧
    (selfResult e).validUntilTS = e.now + e.serverKeyValidity := by
  obtain ⟨m, hm⟩ := hdbOk (handleLocalKeys e requests0 []).1
  have h1 : r ∉ kkeys (handleLocalKeys e requests0 []).1 :=
    localPass_requests_self e.serverName (selfResult e) requests0 r hself
      requests0 [] hmem
  have h2 : kfind (handleLocalKeys e requests0 []).2 r = some (selfResult e) :=
    localPass_results_self e.serverName (selfResult e) requests0 r hself
      requests0 [] hmem
  have hrm : r ∉ kkeys m := fun hmm => h1 (hdbSub _ m hm r hmm)
  have hr2 : r ∉ kkeys (postDb e requests0 m).1 :=
    dbPass_requests_mono e.now m r _ _ h1
  have hs2 : kfind (postDb e requests0 m).2 r = some (selfResult e) :=
    (dbPass_results_untouched e.now m r hrm
      (handleLocalKeys e requests0 []).1 (handleLocalKeys e requests0 []).2).trans h2
  obtain ⟨hl1, hl2, hl3⟩ := fetcherLoop_self_invariant e Ctx.background e.now
    e.fetchers r (selfResult e) hself hfSub (postDb e requests0 m).1
    (postDb e requests0 m).2 hr2 hs2
  refine ⟨?_, ?_, rfl, rfl⟩
  · rw [FetchKeys_db_ok_results e cctx requests0 m hm]
    exact hl1
  · intro ev hev
    rw [FetchKeys_db_ok_trace e cctx requests0 m hm] at hev
    simp only [List.mem_cons] at hev
    rcases hev with hev | hev
    · subst hev
      simpa [eventReqs] using h1
    · exact hl3 ev hev

/-- C4 witness: a self request against the base environment resolves
to the synthesized self result. -/
theorem C4_witness :
    kfind (FetchKeys baseEnv (Ctx.other 0) [(reqSelf, 5)]).results reqSelf =
      some (selfResult baseEnv) :=
  (C4_self_requests baseEnv (Ctx.other 0) [(reqSelf, 5)] reqSelf
    (by simp [kkeys])
    rfl
    (fun _ => ⟨[], rfl⟩)
    (fun p dbr hm q hq => by
      have hm' : Except.ok ([] : ResMap) = Except.ok dbr := hm
      injection hm' with h
      rw [← h] at hq
      simp [kkeys] at hq)
    (fun f hf => by
      have hf' : f ∈ ([] : List Fetcher) := hf
      simp at hf')).1

/-! ### Claim C5 -/

/-- C5: provided the database fetch succeeds (the stages all run),
`FetchKeys` returns no error exactly when every request of the
original batch has some ResultSet entry; when it returns an error,
that error names an original request that has no entry at all, and the
accumulated ResultSet is still the one returned. -/
theorem C5_completeness (e : KeyEnv) (cctx : Ctx) (requests0 : ReqMap)
    (hdbOk : ∀ p, ∃ dbr, e.dbFetch p = Except.ok dbr) :
    ((FetchKeys e cctx requests0).error = none ↔
      ∀ q ∈ kkeys requests0, kfind (FetchKeys e cctx requests0).results q ≠ none) ∧
    (∀ err, (FetchKeys e cctx requests0).error = some err →
      ∃ q, err = Err.unsat q ∧ q ∈ kkeys requests0 ∧
        kfind (FetchKeys e cctx requests0).results q = none) := by
  obtain ⟨m, hm⟩ := hdbOk (handleLocalKeys e requests0 []).1
  have hres := FetchKeys_db_ok_results e cctx requests0 m hm
  obtain ⟨herr1, herr2⟩ := FetchKeys_db_ok_error e cctx requests0 m hm
  constructor
  · rw [herr1, hres, firstUnsatisfied_eq_none]
  · intro err herr
    obtain ⟨req, hfu, hreq⟩ := herr2 err herr
    obtain ⟨hq1, hq2⟩ := firstUnsatisfied_eq_some requests0
      (postLoop e requests0 m).2.1 req hfu
    exact ⟨req, hreq, hq1, by rw [hres]; exact hq2⟩

/-- C5 witness: a remote request that nothing satisfies makes the call
report an error. -/
theorem C5_witness : (FetchKeys baseEnv (Ctx.other 0) [(reqA, 0)]).error ≠ none := by
  have h := (C5_completeness baseEnv (Ctx.other 0) [(reqA, 0)]
    (fun _ => ⟨[], rfl⟩)).1
  intro hnone
  have h2 := h.mp hnone reqA (by simp [kkeys])
  exact h2 rfl

/-! ### Claim C6 -/

/-- C6 counterexample: in a run whose caller context is `other 0`, the
database fetch runs on the background context and the fetcher on a
30-second timeout derived from background — neither is derived from
the caller's context, refuting "the context passed to the Key Database
fetch is derived from the caller's context" and "the context passed to
each fetcher is the caller's context intersected with a 30-second
cap". -/
theorem C6_counterexample :
    (FetchKeys envC6 (Ctx.other 0) [(reqA, 0)]).trace =
      [Event.dbFetch Ctx.background [(reqA, 0)],
       Event.fetcherFetch "fetcher-one" (Ctx.withTimeout Ctx.background 30000)
         [(reqA, 0)],
       Event.dbStore Ctx.background [(reqA, resFreshA)]] ∧
    ctxDerivedFrom Ctx.background (Ctx.other 0) = false ∧
    ctxDerivedFrom (Ctx.withTimeout Ctx.background 30000) (Ctx.other 0) = false := by
  decide

/-- C6 (amended): `FetchKeys` discards the caller's context entirely
(the Go receiver takes `_ context.Context` and switches to
`context.Background()`): the call's outcome is identical for any two
caller contexts, and every external call — database fetch, fetcher
fetch and store-back alike — runs on the background context or on a
30-second timeout derived from it; not only the store-backs but all
stages are detached from the caller's cancellation. -/
theorem C6_context_amended (e : KeyEnv) (c1 c2 : Ctx) (requests0 : ReqMap) :
    FetchKeys e c1 requests0 = FetchKeys e c2 requests0 ∧
    ∀ ev ∈ (FetchKeys e c1 requests0).trace,
      eventCtx ev = Ctx.background ∨
      eventCtx ev = Ctx.withTimeout Ctx.background 30000 := by
  refine ⟨rfl, ?_⟩
  intro ev hev
  cases hdb : e.dbFetch (handleLocalKeys e requests0 []).1 with
  | error msg =>
    rw [FetchKeys_db_error e c1 requests0 msg hdb] at hev
    simp only [List.mem_singleton] at hev
    subst hev
    exact Or.inl rfl
  | ok m =>
    rw [FetchKeys_db_ok_trace e c1 requests0 m hdb] at hev
    simp only [List.mem_cons] at hev
    rcases hev with hev | hev
    · subst hev
      exact Or.inl rfl
    · exact fetcherLoop_event_ctx e Ctx.background e.now e.fetchers
        (postDb e requests0 m).1 (postDb e requests0 m).2 ev hev

/-- C6 witness: the amended theorem applied to the store-back event of
a concrete run. -/
theorem C6_amended_witness :
    eventCtx (Event.dbStore Ctx.background [(reqA, resFreshA)]) = Ctx.background ∨
    eventCtx (Event.dbStore Ctx.background [(reqA, resFreshA)]) =
      Ctx.withTimeout Ctx.background 30000 :=
  (C6_context_amended envC6 (Ctx.other 0) (Ctx.other 1) [(reqA, 0)]).2
    (Event.dbStore Ctx.background [(reqA, resFreshA)]) (by decide)

/-! ### Claim C7 -/

/-- C7: no request whose server name equals the resolver's own ever
appears in any StoreBatch handed to the key database's store
operation, in any fetcher stage of any run. -/
theorem C7_no_self_stored (e : KeyEnv) (cctx : Ctx) (requests0 : ReqMap)
    (ev : Event) (hev : ev ∈ (FetchKeys e cctx requests0).trace)
    (q : PublicKeyLookupRequest) (hq : q ∈ kkeys (storeBatchOf ev)) :
    q.serverName ≠ e.serverName := by
  cases hdb : e.dbFetch (handleLocalKeys e requests0 []).1 with
  | error msg =>
    rw [FetchKeys_db_error e cctx requests0 msg hdb] at hev
    simp only [List.mem_singleton] at hev
    subst hev
    simp [storeBatchOf, kkeys] at hq
  | ok m =>
    rw [FetchKeys_db_ok_trace e cctx requests0 m hdb] at hev
    simp only [List.mem_cons] at hev
    rcases hev with hev | hev
    · subst hev
      simp [storeBatchOf, kkeys] at hq
    · exact fetcherLoop_store_no_self e Ctx.background e.now e.fetchers
        (postDb e requests0 m).1 (postDb e requests0 m).2 ev hev q hq

/-- C7 witness: the theorem applied to the non-empty store batch of a
concrete run. -/
theorem C7_witness : reqA.serverName ≠ envC1.serverName :=
  C7_no_self_stored envC1 (Ctx.other 0) [(reqA, 0)]
    (Event.dbStore Ctx.background [(reqA, res200)]) (by decide)
    reqA (by decide)

/-! ### Claim C8 -/

/-- C8 counterexample: a call whose batch holds one self request
leaves the caller's request map empty — `FetchKeys` mutates the
caller's map in place (the copied `origRequests` serves only the
completeness check), refuting "the input mapping is the same after the
call returns as before it". -/
theorem C8_counterexample :
    (FetchKeys baseEnv (Ctx.other 0) [(reqSelf, 5)]).finalRequests = [] ∧
    ([] : ReqMap) ≠ [(reqSelf, 5)] := by
  decide

/-- C8 (amended): `FetchKeys` mutates the caller's requests map as its
PendingSet — satisfied entries are removed from it — while a private
copy of the original batch is kept for the completeness check. The
mutation only shrinks the map: every entry still present after the
call was in the input with the same not-before hint. -/
theorem C8_mutation_amended (e : KeyEnv) (cctx : Ctx) (requests0 : ReqMap)
    (q : PublicKeyLookupRequest) (v : Timestamp)
    (h : kfind (FetchKeys e cctx requests0).finalRequests q = some v) :
    kfind requests0 q = some v := by
  cases hdb : e.dbFetch (handleLocalKeys e requests0 []).1 with
  | error msg =>
    rw [FetchKeys_db_error e cctx requests0 msg hdb] at h
    exact localPass_requests_subfind e.serverName (selfResult e) requests0 q v
      requests0 [] h
  | ok m =>
    rw [FetchKeys_db_ok_final e cctx requests0 m hdb] at h
    have h2 := fetcherLoop_requests_subfind e Ctx.background e.now e.fetchers q v
      (postDb e requests0 m).1 (postDb e requests0 m).2 h
    have h3 := dbPass_requests_subfind e.now m q v
      (handleLocalKeys e requests0 []).1 (handleLocalKeys e requests0 []).2 h2
    exact localPass_requests_subfind e.serverName (selfResult e) requests0 q v
      requests0 [] h3

/-- C8 witness: an unservable remote request survives in the caller's
map with its original hint. -/
theorem C8_amended_witness : kfind [(reqA, (7 : Timestamp))] reqA = some 7 :=
  C8_mutation_amended baseEnv (Ctx.other 0) [(reqA, 7)] reqA 7 rfl

/-! ### Claim C9 -/

/-- C9: when the device-key-change message decodes and the
shared-users query succeeds (with distinct users, as a Go map yields),
the consumer notifies exactly once per user in the query result plus
the changed user (who is counted once even if already present), and
every notification carries the message's partition/offset as stream
position and the changed user as subject. -/
theorem C9_fanout (e : KeyChangeEnv) (s0 : List (Int × Int)) (msg : ConsumerMessage)
    (output : DeviceMessage) (users : List (String × Nat))
    (hu : e.unmarshalDeviceMessage msg.value = Except.ok output)
    (hq : e.querySharedUsers output.userID = Except.ok users)
    (hnodup : (kkeys users).Nodup) :
    (∀ u, ((onMessage e s0 msg).notified.map KeyChangeNotification.wakeUserID).count u =
      if u ∈ kkeys users ∨ u = output.userID then 1 else 0) ∧
    (∀ n ∈ (onMessage e s0 msg).notified,
      n.keyChangeUserID = output.userID ∧
      n.posUpdate = { deviceListPosition :=
        { offset := msg.offset, partition := msg.partition } }) := by
  have hnot : (onMessage e s0 msg).notified =
      (kinsert users output.userID 1).map (fun p =>
        { posUpdate := { deviceListPosition :=
            { offset := msg.offset, partition := msg.partition } }
          wakeUserID := p.1
          keyChangeUserID := output.userID }) := by
    simp only [onMessage, hu, hq]
  constructor
  · intro u
    rw [hnot, List.map_map]
    have hmap : (KeyChangeNotification.wakeUserID ∘ fun p : String × Nat =>
        ({ posUpdate := { deviceListPosition :=
              { offset := msg.offset, partition := msg.partition } }
           wakeUserID := p.1
           keyChangeUserID := output.userID } : KeyChangeNotification)) =
        Prod.fst := rfl
    rw [hmap]
    rw [show (kinsert users output.userID 1).map Prod.fst =
      kkeys (kinsert users output.userID 1) from rfl]
    rw [count_nodup _ (kkeys_kinsert_nodup users output.userID 1 hnodup) u]
    simp only [mem_kkeys_kinsert_iff]
  · intro n hn
    rw [hnot] at hn
    simp only [List.mem_map] at hn
    obtain ⟨p, hp, hpn⟩ := hn
    rw [← hpn]
    exact ⟨rfl, rfl⟩

/-- C9 witness: the changed user is notified exactly once even though
absent from the query result. -/
theorem C9_witness :
    ((onMessage envC9 [] msgP3O9).notified.map
      KeyChangeNotification.wakeUserID).count "@alice:x" = 1 := by
  have h := (C9_fanout envC9 [] msgP3O9 { userID := "@alice:x" } [("@bob:x", 2)]
    rfl rfl (by decide)).1 "@alice:x"
  rw [if_pos (Or.inr rfl)] at h
  exact h

theorem onMessage_offset (e : KeyChangeEnv) (s0 : List (Int × Int))
    (msg : ConsumerMessage) :
    (onMessage e s0 msg).partitionToOffset =
      kinsert s0 msg.partition msg.offset := by
  unfold onMessage
  cases hu : e.unmarshalDeviceMessage msg.value with
  | error err => rfl
  | ok output =>
    show (match e.querySharedUsers output.userID with
      | Except.error err =>
        ({ error := some err, notified := []
           partitionToOffset := kinsert s0 msg.partition msg.offset } : OnMessageOut)
      | Except.ok userIDsToCount =>
        { error := none
          notified := (kinsert userIDsToCount output.userID 1).map
            (fun p : String × Nat =>
              { posUpdate := { deviceListPosition :=
                  { offset := msg.offset, partition := msg.partition } }
                wakeUserID := p.1
                keyChangeUserID := output.userID })
          partitionToOffset :=
            kinsert s0 msg.partition msg.offset }).partitionToOffset =
      kinsert s0 msg.partition msg.offset
    cases hq : e.querySharedUsers output.userID with
    | error err => rfl
    | ok users => rfl

/-! ### Claim C10 -/

/-- C10: `onMessage` always records the message's offset for its
partition — the deferred `updateOffset` runs on every return path, so
a message whose JSON decode fails (and which makes `onMessage` return
that error) still advances the recorded position for its partition. -/
theorem C10_offset_updated (e : KeyChangeEnv) (s0 : List (Int × Int))
    (msg : ConsumerMessage) :
    kfind (onMessage e s0 msg).partitionToOffset msg.partition = some msg.offset ∧
    (∀ err, e.unmarshalDeviceMessage msg.value = Except.error err →
      (onMessage e s0 msg).error = some err) := by
  constructor
  · rw [onMessage_offset]
    exact kfind_kinsert_self s0 msg.partition msg.offset
  · intro err hu
    simp only [onMessage, hu]

/-- C10 witness: a malformed message still updates partition 3's
offset to 9 while the decode error is returned. -/
theorem C10_witness :
    kfind (onMessage envC10 [(3, 2)] msgP3O9).partitionToOffset 3 = some 9 ∧
    (onMessage envC10 [(3, 2)] msgP3O9).error = some "bad json" :=
  ⟨(C10_offset_updated envC10 [(3, 2)] msgP3O9).1,
   (C10_offset_updated envC10 [(3, 2)] msgP3O9).2 "bad json" rfl⟩

end Dendrite
